import Mathlib

/-!
Shallow embedding of `hooks.d/hookutil.py` (git hook utilities).

External effects are modelled by explicit oracles:
* a child process outcome is a `CommandResult` (exit code, captured stdout,
  captured stderr) passed to `run` as a parameter;
* the file system side effect of `get_attr` (removal of its temporary index
  file) is reported as a `Bool` alongside the result;
* the SMTP side effects of `send_mail` are reported as an `SmtpTrace`
  (connection count, messages handed to `sendmail`, whether `close` ran).

Python byte strings are modelled as `List Char` (`Str`); `split`, `strip`
and `splitlines` are re-implemented below with Python 2 `str` semantics.
The `**kwargs` dictionary of the memoization decorator is modelled with
CPython 2.7's string hash and 8-slot open-addressing table, so
`kwargs.values()` iterates in hash-slot order, not call order.
-/

namespace Hookutil

/-- Python byte strings, modelled as lists of characters. -/
abbrev Str := List Char

/-- Python 2 `str.split(sep)` for a one-character separator: every
occurrence of `sep` splits, empty pieces are kept, and the result is
never empty (`''.split(c) == ['']`). -/
def pySplitChar (sep : Char) : Str → List Str
  | [] => [[]]
  | c :: rest =>
    match pySplitChar sep rest with
    | [] => [[]]
    | p :: ps => if c = sep then [] :: p :: ps else (c :: p) :: ps

/-- The character class stripped by Python 2 `str.strip()` with no
argument: `string.whitespace`. -/
def isPyWs (c : Char) : Bool :=
  decide (c = ' ' ∨ c = '\t' ∨ c = '\n' ∨ c = '\r' ∨ c = '\x0b' ∨ c = '\x0c')

/-- Python `str.strip(chars)`: drop characters satisfying `p` from both
ends of the string. -/
def stripWhile (p : Char → Bool) (s : Str) : Str :=
  ((s.dropWhile p).reverse.dropWhile p).reverse

/-- Python `str.strip()` with no argument. -/
def pyStrip (s : Str) : Str := stripWhile isPyWs s

/-- Worker for `splitlines`: `acc` is the current line, reversed. -/
def splitlinesAux (acc : Str) : Str → List Str
  | [] => [acc.reverse]
  | '\r' :: '\n' :: [] => [acc.reverse]
  | '\r' :: '\n' :: rest => acc.reverse :: splitlinesAux [] rest
  | '\r' :: [] => [acc.reverse]
  | '\r' :: rest => acc.reverse :: splitlinesAux [] rest
  | '\n' :: [] => [acc.reverse]
  | '\n' :: rest => acc.reverse :: splitlinesAux [] rest
  | c :: rest => splitlinesAux (c :: acc) rest

/-- Python 2 `str.splitlines()`: split on `\n`, `\r` and `\r\n`; a
trailing line terminator does not produce a final empty line. -/
def splitlines (s : Str) : List Str :=
  match s with
  | [] => []
  | _ => splitlinesAux [] s

/-- The outcome of one child process: exit code and fully captured
stdout/stderr (`proc.wait()` plus reading both temporary files back). -/
structure CommandResult where
  ret : Int
  out : Str
  err : Str
deriving DecidableEq

/-- `subprocess.CalledProcessError(ret, log_cmd)` as raised by `run`. -/
structure CalledProcessError where
  returncode : Int
  cmd : String
deriving DecidableEq

/-- The truncated command line logged and stored in the error:
`' '.join(cmd[:10] + [" ... (cut %s)" % (len(cmd)-10)] if len(cmd) > 10 else cmd)`. -/
def log_cmd (cmd : List String) : String :=
  String.intercalate " "
    (if cmd.length > 10 then
      cmd.take 10 ++ [" ... (cut " ++ toString (cmd.length - 10) ++ ")"]
    else cmd)

/-- `run(cmd, exec_dir, env, check_ret)`: the child's behaviour is the
oracle `res`; with `check_ret` set and a non-zero exit code the call
raises `CalledProcessError`, otherwise it returns `(ret, out, err)`.
(`exec_dir` and `env` only feed the oracle and are omitted.) -/
def run (cmd : List String) (res : CommandResult) (check_ret : Bool) :
    Except CalledProcessError CommandResult :=
  if check_ret = true ∧ res.ret ≠ 0 then .error ⟨res.ret, log_cmd cmd⟩
  else .ok res

/-- Errors surfacing from `get_attr`: a failed command invocation, a
failed `assert`, or an out-of-range `chunks[i]` access. -/
inductive HookError where
  | commandFailed (e : CalledProcessError)
  | assertionFailed
  | indexError
deriving DecidableEq

/-- `get_attr(repo_dir, new_sha, filename, attr)`.  The two child
processes (`git read-tree`, `git check-attr`) are oracles.  The `Bool`
in the result records whether `os.remove(idx_file)` was reached: in the
source it sits between the second `run` call and the output parsing, on
the straight-line path only (no `try`/`finally`). -/
def get_attr (repo_dir new_sha filename attr : String)
    (readTreeRes checkAttrRes : CommandResult) : Except HookError Str × Bool :=
  let _ := repo_dir
  match run ["git", "read-tree", new_sha] readTreeRes true with
  | .error e => (.error (.commandFailed e), false)
  | .ok _ =>
    match run ["git", "check-attr", "--cached", attr, "--", filename] checkAttrRes true with
    | .error e => (.error (.commandFailed e), false)
    | .ok res =>
      let chunks := (pySplitChar ':' res.out).map pyStrip
      match chunks with
      | [] => (.error .indexError, true)
      | c0 :: rest =>
        if c0 ≠ filename.data then (.error .assertionFailed, true)
        else
          match rest with
          | [] => (.error .indexError, true)
          | c1 :: rest2 =>
            if c1 ≠ attr.data then (.error .assertionFailed, true)
            else
              match rest2 with
              | [] => (.error .indexError, true)
              | c2 :: _ => (.ok c2, true)

/-- CPython 2.7 string hash (64-bit platform, hash randomization off, as
in this source's runtime): `x = ord(s[0]) << 7`, then for every
character `x = (1000003 * x XOR ord(c)) mod 2^64`, then
`x = x XOR len(s)`, with the signed value `-1` mapped to `-2`
(`18446744073709551615` to `18446744073709551614` in two's complement).
The empty string hashes to 0. -/
def pyStringHash (s : Str) : Nat :=
  match s with
  | [] => 0
  | c0 :: _ =>
    let x0 := (c0.toNat * 128) % 18446744073709551616
    let x1 := s.foldl
      (fun x c => Nat.xor ((1000003 * x) % 18446744073709551616) c.toNat) x0
    let x2 := Nat.xor x1 s.length
    if x2 = 18446744073709551615 then 18446744073709551614 else x2

/-- One insertion into the 8-slot open-addressing table of a small
CPython 2.7 dict: start at slot `hash mod 8`; on a collision with a
different key probe with `j := 5*j + perturb + 1; perturb := perturb / 32`
(slot index `j mod 8`); an entry with the same key is replaced in place.
`fuel` bounds the probe walk; 64 steps always reach an empty slot in a
table that has one (perturb is exhausted after 13 shifts and the bare
recurrence then cycles through all 8 slots). -/
def dictInsert {V : Type} : Nat → List (Option (String × V)) → Nat → Nat →
    String → V → List (Option (String × V))
  | 0, tbl, _, _, _, _ => tbl
  | fuel + 1, tbl, j, perturb, name, v =>
    match tbl[j % 8]? with
    | none => tbl
    | some none => tbl.set (j % 8) (some (name, v))
    | some (some nv) =>
      if nv.1 = name then tbl.set (j % 8) (some (name, v))
      else dictInsert fuel tbl (5 * j + perturb + 1) (perturb / 32) name v

/-- The slot table of the `**kwargs` dict: the keyword arguments are
inserted in call order into an 8-slot table.  Faithful below CPython's
resize threshold, i.e. for calls with at most five keyword arguments —
the only regime these hooks use. -/
def kwargsTable {V : Type} (kwargs : List (String × V)) :
    List (Option (String × V)) :=
  kwargs.foldl
    (fun tbl p =>
      dictInsert 64 tbl (pyStringHash p.1.data) (pyStringHash p.1.data) p.1 p.2)
    (List.replicate 8 none)

/-- `kwargs.values()`: the values read off the dict's slot table in slot
index order — CPython 2 iteration order, which is hash-slot order, not
call order. -/
def kwargsValues {V : Type} (kwargs : List (String × V)) : List V :=
  (kwargsTable kwargs).filterMap (fun s => s.map Prod.snd)

/-- The cache key of `Memoized.__call__`: `args + tuple(kwargs.values())`
— the positional values followed by the keyword values in the kwargs
dict's hash-slot iteration order. -/
def memoKey {V : Type} (args : List V) (kwargs : List (String × V)) : List V :=
  args ++ kwargsValues kwargs

/-- Lookup in `self.memoized` (a dict keyed by the argument tuple). -/
def memoLookup {V : Type} [DecidableEq V] (key : List V) :
    List (List V × V) → Option V
  | [] => none
  | (k, v) :: rest => if k = key then some v else memoLookup key rest

/-- The `Memoized` decorator's state: the wrapped function and the cache. -/
structure Memoized (V : Type) where
  function : List V → List (String × V) → V
  memoized : List (List V × V)

/-- `Memoized.__call__(*args, **kwargs)`: on a cache hit return the cached
value, otherwise compute, store, and return.  The `Bool` records whether
the wrapped function was executed by this call. -/
def Memoized.call {V : Type} [DecidableEq V] (m : Memoized V)
    (args : List V) (kwargs : List (String × V)) : V × Memoized V × Bool :=
  let key := memoKey args kwargs
  match memoLookup key m.memoized with
  | some v => (v, m, false)
  | none =>
    let v := m.function args kwargs
    (v, { m with memoized := (key, v) :: m.memoized }, true)

/-- `Memoized` wrapping a function that can raise: the state and call
protocol are identical, but `self.memoized[key] = self.function(...)`
only assigns when the call returns, so an error leaves the cache as is. -/
structure MemoizedExc (E V : Type) where
  function : List V → List (String × V) → Except E V
  memoized : List (List V × V)

/-- `MemoizedExc.__call__`: like `Memoized.call`, with the error of the
wrapped function propagated and nothing stored on the error path. -/
def MemoizedExc.call {E V : Type} [DecidableEq V] (m : MemoizedExc E V)
    (args : List V) (kwargs : List (String × V)) :
    Except E V × MemoizedExc E V × Bool :=
  let key := memoKey args kwargs
  match memoLookup key m.memoized with
  | some v => (.ok v, m, false)
  | none =>
    match m.function args kwargs with
    | .ok v => (.ok v, { m with memoized := (key, v) :: m.memoized }, true)
    | .error e => (.error e, m, true)

/-- `'0' * 40`, the all-zero revision sentinel. -/
def zeros40 : String := String.mk (List.replicate 40 '0')

/-- `git_commit_fields` from `parse_git_log`. -/
def git_commit_fields : List String :=
  ["commit", "author_name", "author_email", "date", "message"]

/-- `git_log_format = '%x1f'.join(['%H', '%an', '%ae', '%ad', '%s']) + '%x1e'`
(a literal format string handed to git; the escapes are expanded by git,
not by Python). -/
def git_log_format : String :=
  String.intercalate "%x1f" ["%H", "%an", "%ae", "%ad", "%s"] ++ "%x1e"

/-- The command-construction half of `parse_git_log`: builds the `git log`
invocation from the arguments and returns it together with the effective
value of `this_branch_only` after the sentinel check.  `refsOut` is the
oracle output of `git for-each-ref --format=%(refname)`. -/
def parse_git_log_cmd (branch old_sha new_sha : String)
    (this_branch_only : Bool) (refsOut : String) : List String × Bool :=
  let base := ["git", "log", "--format=" ++ git_log_format]
  let (cmd, tbo) :=
    if old_sha = zeros40 then (base ++ [new_sha], false)
    else (base ++ [old_sha ++ ".." ++ new_sha], this_branch_only)
  if tbo then (cmd, tbo)
  else
    let refs := (splitlines refsOut.data).map (fun l => String.mk l)
    let refs := refs.erase branch
    if refs = [] then (cmd, tbo)
    else (cmd ++ ["--ignore-missing", "--not"] ++ refs, tbo)

/-- The character set of `log.strip('\n\x1e')`. -/
def logStripSet (c : Char) : Bool := decide (c = '\n' ∨ c = '\x1e')

/-- The output-parsing half of `parse_git_log`: empty output yields an
empty result; otherwise strip `'\n'`/`'\x1e'` from the ends, split into
records on `'\x1e'`, strip each record, split it into fields on `'\x1f'`,
and zip the fields positionally with `git_commit_fields`
(`dict(zip(...))`, modelled as an association list). -/
def parse_git_log_output (logOut : Str) : List (List (String × Str)) :=
  if logOut = [] then []
  else
    ((pySplitChar '\x1e' (stripWhile logStripSet logOut)).map
      (fun row => pySplitChar '\x1f' (pyStrip row))).map
      (fun row => List.zip git_commit_fields row)

/-- `'\x1f'.join(fields)`: one log record as git prints it. -/
def joinSep (sep : Char) : List Str → Str
  | [] => []
  | [p] => p
  | p :: q :: rest => p ++ sep :: joinSep sep (q :: rest)

/-- One record's raw text: its fields joined by the field separator. -/
def fieldJoin (r : List Str) : Str := joinSep '\x1f' r

/-- Synthetic `git log` output: each record's fields joined by `'\x1f'`,
each record terminated by `'\x1e'` (the trailing byte of
`git_log_format`). -/
def mkLogOutput (recs : List (List Str)) : Str :=
  (recs.map (fun r => fieldJoin r ++ ['\x1e'])).flatten

/-- `\d` of the raw-diff regex (Python 2 `re`, no Unicode flag). -/
def isDigitChar (c : Char) : Bool := decide ('0' ≤ c ∧ c ≤ '9')

/-- `\s` of the raw-diff regex: `[ \t\n\r\f\v]`. -/
def isPyRegexWs (c : Char) : Bool :=
  decide (c = ' ' ∨ c = '\t' ∨ c = '\n' ∨ c = '\r' ∨ c = '\x0c' ∨ c = '\x0b')

/-- `[a-z0-9]`, the object-id character class of the source regex. -/
def isLowerAlnum (c : Char) : Bool :=
  decide (('0' ≤ c ∧ c ≤ '9') ∨ ('a' ≤ c ∧ c ≤ 'z'))

/-- `[0-9a-f]`: lowercase hexadecimal digits. -/
def isHexLower (c : Char) : Bool :=
  decide (('0' ≤ c ∧ c ≤ '9') ∨ ('a' ≤ c ∧ c ≤ 'f'))

/-- Consume exactly `n` characters satisfying `p`; return them and the
rest of the input. -/
def takeCount (p : Char → Bool) : Nat → Str → Option (Str × Str)
  | 0, s => some ([], s)
  | _ + 1, [] => none
  | n + 1, c :: rest =>
    if p c then (takeCount p n rest).map (fun t => (c :: t.1, t.2)) else none

/-- Consume exactly one character satisfying `p`. -/
def expectOne (p : Char → Bool) : Str → Option Str
  | [] => none
  | c :: rest => if p c then some rest else none

/-- The four capture groups of the raw-diff line regex, in
`match.groups()` order. -/
structure RawGroups where
  old_blob : Str
  new_blob : Str
  status : Str
  path : Str
deriving DecidableEq

/-- The line regex of `parse_git_show`,
`^:\d{6}\s\d{6}\s(ID{40})\s(ID{40})\s([MAD])\s+(.+)$`, with the
object-id character class `idClass` a parameter.  The `\s+(.+)$` tail is
matched with Python backtracking: the whitespace run is consumed
greedily, and if nothing is left for `(.+)` the last whitespace
character is given back to it. -/
def matchRawLineWith (idClass : Char → Bool) (line : Str) : Option RawGroups := do
  let s0 ← match line with | ':' :: s => some s | _ => none
  let d1 ← takeCount isDigitChar 6 s0
  let s2 ← expectOne isPyRegexWs d1.2
  let d2 ← takeCount isDigitChar 6 s2
  let s4 ← expectOne isPyRegexWs d2.2
  let g1 ← takeCount idClass 40 s4
  let s6 ← expectOne isPyRegexWs g1.2
  let g2 ← takeCount idClass 40 s6
  let s8 ← expectOne isPyRegexWs g2.2
  let st ← match s8 with
    | c :: rest => if c = 'M' ∨ c = 'A' ∨ c = 'D' then some (([c] : Str), rest) else none
    | [] => none
  let ws := st.2.takeWhile isPyRegexWs
  let rest := st.2.dropWhile isPyRegexWs
  if ws = [] then none
  else if rest ≠ [] then some ⟨g1.1, g2.1, st.1, rest⟩
  else if 2 ≤ ws.length then some ⟨g1.1, g2.1, st.1, ws.drop (ws.length - 1)⟩
  else none

/-- The source's raw-diff line pattern: object ids are `[a-z0-9]{40}`. -/
def matchRawLine (line : Str) : Option RawGroups :=
  matchRawLineWith isLowerAlnum line

/-- The raw-diff line pattern as the spec words it: the same shape, but
with "two 40-hex object ids" — object ids drawn from `[0-9a-f]` only.
Declared for comparison with `matchRawLine`, which is the source's. -/
def specRawLinePattern (line : Str) : Option RawGroups :=
  matchRawLineWith isHexLower line

/-- `git_show_fields` from `parse_git_show`. -/
def git_show_fields : List String := ["old_blob", "new_blob", "status", "path"]

/-- `extension_match(filepath, extensions)`:
`any(filepath.endswith(ext) for ext in extensions)`, true when no filter
is given. -/
def extension_match (filepath : Str) (extensions : Option (List String)) : Bool :=
  match extensions with
  | none => true
  | some exts => exts.any (fun e => e.data.isSuffixOf filepath)

/-- `dict(zip(git_show_fields, match.groups()))`. -/
def showRecord (g : RawGroups) : List (String × Str) :=
  List.zip git_show_fields [g.old_blob, g.new_blob, g.status, g.path]

/-- The `for line in show.splitlines()` loop of `parse_git_show`:
non-matching lines are logged and skipped (`continue`); matching lines
are kept when the extension filter passes. -/
def parse_show_lines (extensions : Option (List String)) :
    List Str → List (List (String × Str))
  | [] => []
  | line :: rest =>
    match matchRawLine line with
    | none => parse_show_lines extensions rest
    | some g =>
      if extension_match g.path extensions then
        showRecord g :: parse_show_lines extensions rest
      else parse_show_lines extensions rest

/-- The error raised by `assert sha != '0' * 40` in `parse_git_show`
(the spec's `InvalidArgument`). -/
inductive ShowError where
  | invalidArgument
deriving DecidableEq

/-- `parse_git_show(repo, sha, extensions)`: the `git show` output is the
oracle `showOut`.  The `Bool` records whether the diff query ran; the
assert precedes it, so the all-zero sentinel fails before any command. -/
def parse_git_show (sha : String) (showOut : Str)
    (extensions : Option (List String)) :
    Except ShowError (List (List (String × Str))) × Bool :=
  if sha = zeros40 then (.error .invalidArgument, false)
  else (.ok (parse_show_lines extensions (splitlines showOut)), true)

/-- A delivery failure raised by `smtp.sendmail`. -/
inductive MailError where
  | deliveryFailed
deriving DecidableEq

/-- The observable SMTP effects of one `send_mail` call. -/
structure SmtpTrace where
  connections : Nat
  sends : List (String × String)
  closed : Bool
deriving DecidableEq

/-- The HTML shell wrapped around each body text. -/
def wrapHtml (text : String) : String :=
  "<HTML><BODY><div><pre>" ++ text ++ "</pre></div></BODY></HTML>"

/-- The `for send_to in mail_to` loop: build each message and hand it to
`smtp.sendmail`; a raising send aborts the loop at once.  Returns the
attempted sends (recipient, wrapped body) and the first error, if any.
The per-message envelope headers (`Date`, `Message-ID`, ...) are
nondeterministic and elided from the trace. -/
def sendLoop (res : String → Option MailError) :
    List (String × String) → List (String × String) × Option MailError
  | [] => ([], none)
  | (send_to, text) :: rest =>
    match res send_to with
    | some e => ([(send_to, wrapHtml text)], some e)
    | none =>
      let r := sendLoop res rest
      ((send_to, wrapHtml text) :: r.1, r.2)

/-- `send_mail(mail_to, ...)`: return at once on an empty mapping;
otherwise connect once, send each message in turn, and reach
`smtp.close()` only if no send raised (the loop and the close are not
protected by `try`/`finally`).  `res` is the relay oracle: the error a
given recipient's send raises, if any. -/
def send_mail (mail_to : List (String × String))
    (res : String → Option MailError) : Except MailError Unit × SmtpTrace :=
  if mail_to = [] then (.ok (), ⟨0, [], false⟩)
  else
    match sendLoop res mail_to with
    | (sends, none) => (.ok (), ⟨1, sends, true⟩)
    | (sends, some e) => (.error e, ⟨1, sends, false⟩)

/-! Concrete inputs used by the witnesses below. -/

/-- A failing `git read-tree` child (exit code 128). -/
def readTreeFail : CommandResult := ⟨128, [], []⟩

/-- A succeeding `git read-tree` child. -/
def readTreeOk : CommandResult := ⟨0, [], []⟩

/-- A succeeding `git check-attr` child echoing `f.py: myattr: set`. -/
def checkAttrOk : CommandResult := ⟨0, ("f.py: myattr: set").data, []⟩

/-- A concrete pure function to memoize: sum of all argument values. -/
def fNatConst : List Nat → List (String × Nat) → Nat :=
  fun args kwargs => args.sum + (kwargs.map Prod.snd).sum

/-- A concrete wrapped function that always raises. -/
def fNatErr : List Nat → List (String × Nat) → Except Unit Nat :=
  fun _ _ => .error ()

/-- A two-recipient mail batch. -/
def mailBatch : List (String × String) := [("a@x.com", "hi"), ("b@x.com", "bye")]

/-- A relay that accepts every message. -/
def relayOk : String → Option MailError := fun _ => none

/-- A relay that rejects the first recipient's message. -/
def relayFailFirst : String → Option MailError :=
  fun send_to => if send_to = "a@x.com" then some .deliveryFailed else none

/-- Two 40-character object ids for a well-formed raw diff line. -/
def hexA40 : Str := List.replicate 40 'a'

/-- Second object id of the sample raw diff line. -/
def hexB40 : Str := List.replicate 40 'b'

/-- `git show` oracle output: one well-formed raw line plus one malformed
line. -/
def sampleShow : Str :=
  (":100755 100755 ").data ++ hexA40 ++ [' '] ++ hexB40 ++ (" M  githooks.py").data
    ++ ('\n' :: ("bogus").data)

/-- A 40-character object id containing non-hex characters. -/
def z40 : Str := List.replicate 40 'z'

/-- A raw diff line whose object ids are `[a-z0-9]` but not hex. -/
def zShowLine : Str :=
  (":100644 100644 ").data ++ z40 ++ [' '] ++ z40 ++ (" M zzz.py").data

/-- Two well-formed five-field log records. -/
def sampleLogRecs : List (List Str) :=
  [[("deadbeef").data, ("Ann").data, ("ann@x.com").data, ("Mon Oct 6").data, ("fix bug").data],
   [("cafebabe").data, ("Bob").data, ("bob@x.com").data, ("Tue Oct 7").data, ("add docs").data]]

/-- One two-field record and one six-field record (malformed counts). -/
def sampleShortRecs : List (List Str) :=
  [[("ab").data, ("cd").data],
   [("a1").data, ("b2").data, ("c3").data, ("d4").data, ("e5").data, ("f6").data]]

/-! Helper lemmas about the Python string primitives. -/

/-- `dropWhile` never lengthens a list. -/
theorem length_dropWhile_le (p : Char → Bool) (l : Str) :
    (l.dropWhile p).length ≤ l.length := by
  induction l with
  | nil => simp
  | cons c rest ih =>
    rw [List.dropWhile_cons]
    split
    · exact Nat.le_succ_of_le ih
    · simp

/-- A list unchanged by `dropWhile p` has a head not satisfying `p`. -/
theorem dropWhile_head_false (p : Char → Bool) (c : Char) (t : Str)
    (h : (c :: t).dropWhile p = c :: t) : p c = false := by
  cases hc : p c with
  | false => rfl
  | true =>
    exfalso
    rw [List.dropWhile_cons, if_pos hc] at h
    have hlen := congrArg List.length h
    rw [List.length_cons] at hlen
    have hle := length_dropWhile_le p t
    omega

/-- `dropWhile` is the identity when the head does not satisfy `p`. -/
theorem dropWhile_eq_self_of_head (p : Char → Bool) (l : Str)
    (h : ∀ c, l.head? = some c → p c = false) : l.dropWhile p = l := by
  cases l with
  | nil => rfl
  | cons c t => rw [List.dropWhile_cons, if_neg (by simp [h c rfl])]

/-- `pySplitChar` never returns an empty list of pieces. -/
theorem pySplitChar_ne_nil (sep : Char) (s : Str) : pySplitChar sep s ≠ [] := by
  induction s with
  | nil => simp [pySplitChar]
  | cons c rest ih =>
    rw [pySplitChar]
    cases h : pySplitChar sep rest with
    | nil => simp
    | cons p ps =>
      split
      · simp
      · split <;> simp

/-- Splitting a string without the separator returns it whole. -/
theorem pySplitChar_no_sep (sep : Char) (s : Str) (h : sep ∉ s) :
    pySplitChar sep s = [s] := by
  induction s with
  | nil => rfl
  | cons c rest ih =>
    have hc : ¬(c = sep) := fun e => h (by simp [e])
    have hr : sep ∉ rest := fun e => h (List.mem_cons_of_mem _ e)
    rw [pySplitChar, ih hr]
    simp [hc]

/-- Splitting peels off a separator-free prefix before the separator. -/
theorem pySplitChar_append_sep (sep : Char) (xs ys : Str) (h : sep ∉ xs) :
    pySplitChar sep (xs ++ sep :: ys) = xs :: pySplitChar sep ys := by
  induction xs with
  | nil =>
    rw [List.nil_append, pySplitChar]
    cases hy : pySplitChar sep ys with
    | nil => exact absurd hy (pySplitChar_ne_nil sep ys)
    | cons p ps => simp
  | cons c xs2 ih =>
    have hc : ¬(c = sep) := fun e => h (by simp [e])
    have hx : sep ∉ xs2 := fun e => h (List.mem_cons_of_mem _ e)
    rw [List.cons_append, pySplitChar, ih hx]
    simp [hc]

/-- Splitting inverts joining, when no piece contains the separator. -/
theorem pySplitChar_joinSep (sep : Char) (parts : List Str) (hne : parts ≠ [])
    (h : ∀ p ∈ parts, sep ∉ p) :
    pySplitChar sep (joinSep sep parts) = parts := by
  induction parts with
  | nil => exact absurd rfl hne
  | cons p rest ih =>
    cases rest with
    | nil =>
      rw [joinSep]
      exact pySplitChar_no_sep sep p (h p (by simp))
    | cons q rest2 =>
      rw [joinSep, pySplitChar_append_sep sep p _ (h p (by simp))]
      rw [ih (by simp) (fun x hx => h x (List.mem_cons_of_mem _ hx))]

/-- `stripWhile` is the identity on a string stable under `dropWhile` at
both ends. -/
theorem stripWhile_of_stable (p : Char → Bool) (s : Str)
    (h1 : s.dropWhile p = s) (h2 : s.reverse.dropWhile p = s.reverse) :
    stripWhile p s = s := by
  rw [stripWhile, h1, h2, List.reverse_reverse]

/-- Every character of a joined string is the separator or belongs to a
piece. -/
theorem mem_joinSep (sep : Char) (parts : List Str) (c : Char)
    (h : c ∈ joinSep sep parts) : c = sep ∨ ∃ p ∈ parts, c ∈ p := by
  induction parts with
  | nil => cases h
  | cons p rest ih =>
    cases rest with
    | nil =>
      rw [joinSep] at h
      exact Or.inr ⟨p, by simp, h⟩
    | cons q rest2 =>
      rw [joinSep] at h
      rcases List.mem_append.mp h with hp | hsep
      · exact Or.inr ⟨p, by simp, hp⟩
      · rcases List.mem_cons.mp hsep with hc | hrest
        · exact Or.inl hc
        · rcases ih hrest with h1 | ⟨x, hx, hcx⟩
          · exact Or.inl h1
          · exact Or.inr ⟨x, List.mem_cons_of_mem _ hx, hcx⟩

/-- The head of a join starting with a non-empty piece is that piece's
head. -/
theorem joinSep_head? (sep : Char) (x : Str) (xs : List Str) (hx : x ≠ []) :
    (joinSep sep (x :: xs)).head? = x.head? := by
  cases xs with
  | nil => rw [joinSep]
  | cons q rest =>
    rw [joinSep, List.head?_append]
    cases x with
    | nil => exact absurd rfl hx
    | cons a t => rfl

/-- Joining after appending a last piece appends it behind a separator. -/
theorem joinSep_append_last (sep : Char) (xs : List Str) (y : Str) (h : xs ≠ []) :
    joinSep sep (xs ++ [y]) = joinSep sep xs ++ sep :: y := by
  induction xs with
  | nil => exact absurd rfl h
  | cons p xs2 ih =>
    cases xs2 with
    | nil => simp [joinSep]
    | cons q xs3 =>
      have h2 := ih (by simp)
      simp only [List.cons_append] at h2 ⊢
      rw [joinSep, h2, joinSep]
      simp

/-- A string stable under whitespace-`dropWhile` and free of `'\x1e'` has
a head outside the `strip('\n\x1e')` character set. -/
theorem head_stable_not_set (s : Str)
    (h1 : s.dropWhile isPyWs = s) (hdel : ∀ c ∈ s, c ≠ '\x1e') :
    ∀ c, s.head? = some c → logStripSet c = false := by
  intro c hc
  cases s with
  | nil => cases hc
  | cons a t =>
    have hac : a = c := by simpa using hc
    subst hac
    have hws := dropWhile_head_false isPyWs a t h1
    have hne : a ≠ '\x1e' := hdel a (by simp)
    have hnn : a ≠ '\n' := by
      intro e
      rw [e] at hws
      simp [isPyWs] at hws
    simp [logStripSet, hne, hnn]

/-- `mkLogOutput` of a non-empty record list is the separator-join of the
rendered records followed by one final record terminator. -/
theorem mkLogOutput_eq (recs : List (List Str)) (h : recs ≠ []) :
    mkLogOutput recs = joinSep '\x1e' (recs.map fieldJoin) ++ ['\x1e'] := by
  induction recs with
  | nil => exact absurd rfl h
  | cons r rest ih =>
    cases rest with
    | nil => simp [mkLogOutput, joinSep]
    | cons q rest2 =>
      have h2 := ih (by simp)
      rw [mkLogOutput, List.map_cons, List.flatten_cons] at h2
      rw [mkLogOutput, List.map_cons, List.flatten_cons, List.map_cons,
          List.flatten_cons, h2]
      simp [joinSep]

/-- Stripping `'\n'`/`'\x1e'` from the synthetic log output removes
exactly the final record terminator. -/
theorem strip_mkLogOutput (recs : List (List Str)) (h : recs ≠ [])
    (hfne : ∀ r ∈ recs, fieldJoin r ≠ [])
    (hb1 : ∀ r ∈ recs, (fieldJoin r).dropWhile isPyWs = fieldJoin r)
    (hb2 : ∀ r ∈ recs, (fieldJoin r).reverse.dropWhile isPyWs = (fieldJoin r).reverse)
    (hdel : ∀ r ∈ recs, ∀ c ∈ fieldJoin r, c ≠ '\x1e') :
    stripWhile logStripSet (mkLogOutput recs)
      = joinSep '\x1e' (recs.map fieldJoin) := by
  obtain ⟨r0, rest, rfl⟩ : ∃ r0 rest, recs = r0 :: rest := by
    cases recs with
    | nil => exact absurd rfl h
    | cons a b => exact ⟨a, b, rfl⟩
  rw [mkLogOutput_eq _ (by simp)]
  have hfront : (joinSep '\x1e' ((r0 :: rest).map fieldJoin) ++ ['\x1e']).dropWhile logStripSet
      = joinSep '\x1e' ((r0 :: rest).map fieldJoin) ++ ['\x1e'] := by
    apply dropWhile_eq_self_of_head
    intro c hc
    rw [List.head?_append, List.map_cons,
        joinSep_head? _ _ _ (hfne r0 (by simp))] at hc
    cases hh : (fieldJoin r0).head? with
    | none =>
      cases hj : fieldJoin r0 with
      | nil => exact absurd hj (hfne r0 (by simp))
      | cons a t => rw [hj] at hh; cases hh
    | some c0 =>
      rw [hh] at hc
      have : c0 = c := by simpa [Option.or] using hc
      subst this
      exact head_stable_not_set (fieldJoin r0) (hb1 r0 (by simp))
        (hdel r0 (by simp)) c0 hh
  -- decompose the record list from the back for the trailing side
  rcases List.eq_nil_or_concat (r0 :: rest) with habs | ⟨L, rl, hL⟩
  · cases habs
  rw [stripWhile, hfront]
  have hrev : (joinSep '\x1e' ((r0 :: rest).map fieldJoin) ++ ['\x1e']).reverse
      = '\x1e' :: (joinSep '\x1e' ((r0 :: rest).map fieldJoin)).reverse := by
    rw [List.reverse_append]
    rfl
  rw [hrev, List.dropWhile_cons, if_pos (by decide)]
  have hrl : rl ∈ r0 :: rest := by rw [hL, List.concat_eq_append]; simp
  have hback : (joinSep '\x1e' ((r0 :: rest).map fieldJoin)).reverse.dropWhile logStripSet
      = (joinSep '\x1e' ((r0 :: rest).map fieldJoin)).reverse := by
    apply dropWhile_eq_self_of_head
    intro c hc
    have hrevhead : (joinSep '\x1e' ((r0 :: rest).map fieldJoin)).reverse.head?
        = (fieldJoin rl).reverse.head? := by
      rw [hL, List.concat_eq_append, List.map_append, List.map_cons, List.map_nil]
      cases hLc : L with
      | nil => simp [joinSep]
      | cons l0 ls =>
        rw [joinSep_append_last _ _ _ (by simp), List.reverse_append]
        rw [List.head?_append]
        cases hj : fieldJoin rl with
        | nil => exact absurd hj (hfne rl hrl)
        | cons a t =>
          cases hrt : (a :: t).reverse with
          | nil =>
            exfalso
            have hlen := congrArg List.length hrt
            simp at hlen
          | cons x xs =>
            rw [List.reverse_cons, List.head?_append, hrt]
            rfl
    rw [hrevhead] at hc
    have hstable : (fieldJoin rl).reverse.dropWhile isPyWs = (fieldJoin rl).reverse :=
      hb2 rl hrl
    have hdelr : ∀ c2 ∈ (fieldJoin rl).reverse, c2 ≠ '\x1e' :=
      fun c2 hc2 => hdel rl hrl c2 (List.mem_reverse.mp hc2)
    exact head_stable_not_set _ hstable hdelr c hc
  rw [hback, List.reverse_reverse]

/-- Round trip of `parse_git_log_output` on synthetic output: provided no
field contains a separator byte and each rendered record carries no
leading or trailing Python whitespace, parsing recovers every record,
zipped positionally with the field names. -/
theorem parse_mkLogOutput (recs : List (List Str))
    (hfne : ∀ r ∈ recs, fieldJoin r ≠ [])
    (hdelim : ∀ r ∈ recs, ∀ f ∈ r, ∀ c ∈ f, c ≠ '\x1e' ∧ c ≠ '\x1f')
    (hb1 : ∀ r ∈ recs, (fieldJoin r).dropWhile isPyWs = fieldJoin r)
    (hb2 : ∀ r ∈ recs, (fieldJoin r).reverse.dropWhile isPyWs = (fieldJoin r).reverse) :
    parse_git_log_output (mkLogOutput recs)
      = recs.map (fun r => List.zip git_commit_fields r) := by
  cases recs with
  | nil => simp [mkLogOutput, parse_git_log_output]
  | cons r0 rest =>
    have hne : (r0 :: rest : List (List Str)) ≠ [] := by simp
    have hdelE : ∀ r ∈ r0 :: rest, ∀ c ∈ fieldJoin r, c ≠ '\x1e' := by
      intro r hr c hc
      rcases mem_joinSep _ _ _ hc with hsep | ⟨f, hf, hcf⟩
      · rw [hsep]; decide
      · exact (hdelim r hr f hf c hcf).1
    have hout : mkLogOutput (r0 :: rest) ≠ [] := by
      rw [mkLogOutput_eq _ hne]
      simp
    rw [parse_git_log_output, if_neg hout,
        strip_mkLogOutput _ hne hfne hb1 hb2 hdelE,
        pySplitChar_joinSep '\x1e' ((r0 :: rest).map fieldJoin) (by simp)
          (by
            intro p hp
            rcases List.mem_map.mp hp with ⟨r, hr, rfl⟩
            intro hc
            exact hdelE r hr _ hc rfl),
        List.map_map, List.map_map]
    apply List.map_congr_left
    intro r hr
    simp only [Function.comp]
    rw [pyStrip, stripWhile_of_stable _ _ (hb1 r hr) (hb2 r hr), fieldJoin,
        pySplitChar_joinSep '\x1f' r
          (fun hre => hfne r hr (by rw [hre]; rfl))
          (fun f hf hmem => (hdelim r hr f hf '\x1f' hmem).2 rfl)]

/-- When every send in the batch succeeds, the loop sends one wrapped
message per recipient, in order, and reports no error. -/
theorem sendLoop_all_ok (res : String → Option MailError)
    (l : List (String × String)) (h : ∀ p ∈ l, res p.1 = none) :
    sendLoop res l = (l.map (fun p => (p.1, wrapHtml p.2)), none) := by
  induction l with
  | nil => rfl
  | cons p rest ih =>
    obtain ⟨send_to, text⟩ := p
    have hp : res send_to = none := h _ (List.mem_cons_self _ _)
    have hr := ih (fun q hq => h q (List.mem_cons_of_mem _ hq))
    simp [sendLoop, hp, hr]

/-- If the loop reports no error, every send in the batch succeeded. -/
theorem sendLoop_none_all_ok (res : String → Option MailError) :
    ∀ (l : List (String × String)) (s : List (String × String)),
      sendLoop res l = (s, none) → ∀ p ∈ l, res p.1 = none := by
  intro l
  induction l with
  | nil => intro s _ p hp; cases hp
  | cons q rest ih =>
    obtain ⟨send_to, text⟩ := q
    intro s h p hp
    cases hres : res send_to with
    | some e => simp [sendLoop, hres] at h
    | none =>
      rcases List.mem_cons.mp hp with hpq | hprest
      · rw [hpq]; exact hres
      · rcases hsl : sendLoop res rest with ⟨s2, o⟩
        simp [sendLoop, hres, hsl] at h
        exact ih s2 (by rw [hsl, h.2]) p hprest

/-- The show-parsing loop is a `filterMap` over the output lines. -/
theorem parse_show_lines_filterMap (ext : Option (List String)) (lines : List Str) :
    parse_show_lines ext lines
      = lines.filterMap (fun line =>
          (matchRawLine line).bind (fun g =>
            if extension_match g.path ext then some (showRecord g) else none)) := by
  induction lines with
  | nil => rfl
  | cons line rest ih =>
    cases hm : matchRawLine line with
    | none => simp [parse_show_lines, hm, ih]
    | some g =>
      by_cases he : extension_match g.path ext
      · simp [parse_show_lines, hm, he, ih]
      · simp [parse_show_lines, hm, he, ih]

/-! Claims. -/

/-- C1: `run` with `check_ret = true` returns the captured triple exactly
when the child exits 0 and raises `CalledProcessError` when it exits
non-zero; with `check_ret = false` the triple is returned regardless of
the exit code; an error is raised iff `check_ret` is true and the exit
code is non-zero. -/
theorem run_check_ret (cmd : List String) (res : CommandResult) :
    (res.ret = 0 → run cmd res true = .ok res)
    ∧ (res.ret ≠ 0 → run cmd res true = .error ⟨res.ret, log_cmd cmd⟩)
    ∧ run cmd res false = .ok res
    ∧ ∀ b : Bool, (∃ e, run cmd res b = .error e) ↔ (b = true ∧ res.ret ≠ 0) := by
  refine ⟨?_, ?_, ?_, ?_⟩
  · intro h; simp [run, h]
  · intro h; simp [run, h]
  · simp [run]
  · intro b
    by_cases h : res.ret = 0 <;> cases b <;> simp [run, h]

/-- C1 witness: a zero exit returns the triple, a non-zero exit raises
with `check_ret` set and returns the triple without it. -/
theorem run_check_ret_witness :
    run ["true"] ⟨0, [], []⟩ true = .ok ⟨0, [], []⟩
    ∧ run ["false"] ⟨1, [], []⟩ true = .error ⟨1, log_cmd ["false"]⟩
    ∧ run ["false"] ⟨1, [], []⟩ false = .ok ⟨1, [], []⟩ :=
  ⟨(run_check_ret ["true"] ⟨0, [], []⟩).1 rfl,
   (run_check_ret ["false"] ⟨1, [], []⟩).2.1 (by decide),
   (run_check_ret ["false"] ⟨1, [], []⟩).2.2.1⟩

/-- C2: evaluation at the failing input.  When `git read-tree` exits
non-zero, `get_attr` propagates `CalledProcessError` and the temporary
index file is not removed — `os.remove` sits after both `run` calls with
no `try`/`finally`, so it is unreachable on the error path, against the
claim that deletion happens on every exit path.  On the success path the
file is removed. -/
theorem get_attr_skips_cleanup_on_command_failure :
    get_attr "repo" "badsha" "f.py" "myattr" readTreeFail checkAttrOk
      = (.error (.commandFailed ⟨128, "git read-tree badsha"⟩), false)
    ∧ get_attr "repo" "badsha" "f.py" "myattr" readTreeOk checkAttrOk
      = (.ok ("set").data, true) := by
  constructor
  · rfl
  · rfl

/-- C3 counterexample: a record with two fields (not five) is neither
rejected nor skipped: `parse_git_log_output` succeeds and returns a
silently truncated record carrying only the first two field names. -/
theorem parse_git_log_output_truncated_record :
    parse_git_log_output ("ab\x1fcd\x1e").data
      = [[("commit", ("ab").data), ("author_name", ("cd").data)]]
    ∧ (parse_git_log_output ("ab\x1fcd\x1e").data).map List.length = [2] := by
  constructor
  · rfl
  · rfl

/-- C3 (amended): a record whose field count differs from five is zipped
positionally against the five field names and truncated to the shorter
side (extra fields dropped, missing fields absent); the call returns
these partial records without failing. -/
theorem parse_git_log_output_truncates (recs : List (List Str))
    (hfne : ∀ r ∈ recs, fieldJoin r ≠ [])
    (hdelim : ∀ r ∈ recs, ∀ f ∈ r, ∀ c ∈ f, c ≠ '\x1e' ∧ c ≠ '\x1f')
    (hb1 : ∀ r ∈ recs, (fieldJoin r).dropWhile isPyWs = fieldJoin r)
    (hb2 : ∀ r ∈ recs, (fieldJoin r).reverse.dropWhile isPyWs = (fieldJoin r).reverse) :
    parse_git_log_output (mkLogOutput recs)
      = recs.map (fun r => List.zip git_commit_fields r)
    ∧ ∀ r ∈ recs, (List.zip git_commit_fields r).length = min 5 r.length := by
  refine ⟨parse_mkLogOutput recs hfne hdelim hb1 hb2, ?_⟩
  intro r hr
  rw [List.length_zip]
  rfl

/-- C3 amended-claim witness: a two-field and a six-field record survive
parsing as partial records of lengths 2 and 5. -/
theorem parse_git_log_output_truncates_witness :
    parse_git_log_output (mkLogOutput sampleShortRecs)
      = sampleShortRecs.map (fun r => List.zip git_commit_fields r)
    ∧ ∀ r ∈ sampleShortRecs, (List.zip git_commit_fields r).length = min 5 r.length := by
  exact parse_git_log_output_truncates sampleShortRecs
    (by decide) (by decide) (by decide) (by decide)

/-- C4: with the all-zero sentinel as `old_sha` the constructed `git log`
command receives `new_sha` alone as its revision argument and the
effective `this_branch_only` is false regardless of the caller's value;
for any other `old_sha` the revision argument is exactly the range
`old_sha..new_sha` (and `this_branch_only` keeps the caller's value). -/
theorem parse_git_log_cmd_zero_sentinel (branch old_sha new_sha : String)
    (tbo : Bool) (refsOut : String) :
    (old_sha = zeros40 →
      (∃ tail, (parse_git_log_cmd branch old_sha new_sha tbo refsOut).1
          = ["git", "log", "--format=" ++ git_log_format, new_sha] ++ tail)
      ∧ (parse_git_log_cmd branch old_sha new_sha tbo refsOut).2 = false)
    ∧ (old_sha ≠ zeros40 →
      (∃ tail, (parse_git_log_cmd branch old_sha new_sha tbo refsOut).1
          = ["git", "log", "--format=" ++ git_log_format, old_sha ++ ".." ++ new_sha] ++ tail)
      ∧ (parse_git_log_cmd branch old_sha new_sha tbo refsOut).2 = tbo) := by
  constructor
  · intro h
    by_cases hr : ((splitlines refsOut.data).map (fun l => String.mk l)).erase branch = []
    · exact ⟨⟨[], by simp [parse_git_log_cmd, h, hr]⟩, by simp [parse_git_log_cmd, h, hr]⟩
    · exact ⟨⟨["--ignore-missing", "--not"]
          ++ ((splitlines refsOut.data).map (fun l => String.mk l)).erase branch,
        by simp [parse_git_log_cmd, h, hr]⟩, by simp [parse_git_log_cmd, h, hr]⟩
  · intro h
    cases tbo with
    | true =>
      exact ⟨⟨[], by simp [parse_git_log_cmd, h]⟩, by simp [parse_git_log_cmd, h]⟩
    | false =>
      by_cases hr : ((splitlines refsOut.data).map (fun l => String.mk l)).erase branch = []
      · exact ⟨⟨[], by simp [parse_git_log_cmd, h, hr]⟩, by simp [parse_git_log_cmd, h, hr]⟩
      · exact ⟨⟨["--ignore-missing", "--not"]
            ++ ((splitlines refsOut.data).map (fun l => String.mk l)).erase branch,
          by simp [parse_git_log_cmd, h, hr]⟩, by simp [parse_git_log_cmd, h, hr]⟩

/-- C4 witness: a concrete branch-creation call and a concrete range
call. -/
theorem parse_git_log_cmd_zero_sentinel_witness :
    (parse_git_log_cmd "refs/heads/m" zeros40 "abc" true "").2 = false
    ∧ (parse_git_log_cmd "refs/heads/m" "def0" "abc" true "").2 = true
    ∧ ∃ tail, (parse_git_log_cmd "refs/heads/m" zeros40 "abc" true "").1
        = ["git", "log", "--format=" ++ git_log_format, "abc"] ++ tail := by
  have h1 := parse_git_log_cmd_zero_sentinel "refs/heads/m" zeros40 "abc" true ""
  have h2 := parse_git_log_cmd_zero_sentinel "refs/heads/m" "def0" "abc" true ""
  exact ⟨(h1.1 rfl).2, (h2.2 (by decide)).2, (h1.1 rfl).1⟩

/-- C5: synthetic log output with N well-formed five-field records parses
to exactly N records with the fields assigned positionally in the order
commit, author_name, author_email, date, message; empty output parses to
the empty result without error. -/
theorem parse_git_log_output_roundtrip (recs : List (List Str))
    (h5 : ∀ r ∈ recs, r.length = 5)
    (hdelim : ∀ r ∈ recs, ∀ f ∈ r, ∀ c ∈ f, c ≠ '\x1e' ∧ c ≠ '\x1f')
    (hb1 : ∀ r ∈ recs, (fieldJoin r).dropWhile isPyWs = fieldJoin r)
    (hb2 : ∀ r ∈ recs, (fieldJoin r).reverse.dropWhile isPyWs = (fieldJoin r).reverse) :
    parse_git_log_output (mkLogOutput recs)
      = recs.map (fun r => List.zip git_commit_fields r)
    ∧ (parse_git_log_output (mkLogOutput recs)).length = recs.length
    ∧ (∀ r ∈ recs, ∀ a b c d e, r = [a, b, c, d, e] →
        List.zip git_commit_fields r
          = [("commit", a), ("author_name", b), ("author_email", c),
             ("date", d), ("message", e)])
    ∧ parse_git_log_output [] = [] := by
  have hfne : ∀ r ∈ recs, fieldJoin r ≠ [] := by
    intro r hr
    have := h5 r hr
    cases r with
    | nil => simp at this
    | cons a t =>
      cases t with
      | nil => simp at this
      | cons b t2 =>
        rw [fieldJoin, joinSep]
        simp
  have hmain := parse_mkLogOutput recs hfne hdelim hb1 hb2
  refine ⟨hmain, by rw [hmain, List.length_map], ?_, rfl⟩
  intro r hr a b c d e hre
  rw [hre]
  rfl

/-- C5 witness: two concrete five-field records round-trip, and the empty
output yields the empty result. -/
theorem parse_git_log_output_roundtrip_witness :
    parse_git_log_output (mkLogOutput sampleLogRecs)
      = sampleLogRecs.map (fun r => List.zip git_commit_fields r)
    ∧ (parse_git_log_output (mkLogOutput sampleLogRecs)).length = sampleLogRecs.length
    ∧ parse_git_log_output [] = [] := by
  have h := parse_git_log_output_roundtrip sampleLogRecs
    (by decide) (by decide) (by decide) (by decide)
  exact ⟨h.1, h.2.1, h.2.2.2⟩

/-- C6 counterexample: `f(1, a=2, b=3)` and then `f(1, x=2, y=3)` pass
the same values in the same call order under different keyword names,
yet do not collide: CPython 2 iterates the kwargs dict in hash-slot
order (slots a, b = 0, 3 but x, y = 1, 0), so the keys are (1, 2, 3)
and (1, 3, 2); the second call misses the cache and the wrapped
function executes a second time, against the claim's same-order
collision (and its exactly-once count). -/
theorem memoized_kwnames_no_collision :
    memoKey [1] [("x", 2), ("y", 3)] ≠ memoKey [1] [("a", 2), ("b", 3)]
    ∧ memoKey [1] [("a", 2), ("b", 3)] = [1, 2, 3]
    ∧ memoKey [1] [("x", 2), ("y", 3)] = [1, 3, 2]
    ∧ ((Memoized.call ⟨fNatConst, []⟩ [1] [("a", 2), ("b", 3)]).2.1.call
        [1] [("x", 2), ("y", 3)]).2.2 = true := by
  refine ⟨by decide, by decide, by decide, by decide⟩

/-- C6 (amended): the cache key is the concatenation of the positional
values with the keyword values in the kwargs dict's iteration order
(hash-slot order, not call order).  Starting from an empty cache, the
first call executes the wrapped function and returns its value; a
second call with an equal key — in particular one using different
keyword names whose hash-slot order lines the same values up
identically — returns the cached result without executing the function
and leaves the cache unchanged; a call whose key differs executes the
function again. -/
theorem memoized_call_caches {V : Type} [DecidableEq V]
    (f : List V → List (String × V) → V)
    (a1 a2 a3 : List V) (k1 k2 k3 : List (String × V))
    (heq : memoKey a2 k2 = memoKey a1 k1)
    (hne : memoKey a3 k3 ≠ memoKey a1 k1) :
    (Memoized.call ⟨f, []⟩ a1 k1).1 = f a1 k1
    ∧ (Memoized.call ⟨f, []⟩ a1 k1).2.2 = true
    ∧ ((Memoized.call ⟨f, []⟩ a1 k1).2.1.call a2 k2).1 = (Memoized.call ⟨f, []⟩ a1 k1).1
    ∧ ((Memoized.call ⟨f, []⟩ a1 k1).2.1.call a2 k2).2.2 = false
    ∧ ((Memoized.call ⟨f, []⟩ a1 k1).2.1.call a2 k2).2.1 = (Memoized.call ⟨f, []⟩ a1 k1).2.1
    ∧ (((Memoized.call ⟨f, []⟩ a1 k1).2.1.call a2 k2).2.1.call a3 k3).2.2 = true := by
  have h1 : Memoized.call (⟨f, []⟩ : Memoized V) a1 k1
      = (f a1 k1, ⟨f, [(memoKey a1 k1, f a1 k1)]⟩, true) := by
    simp [Memoized.call, memoLookup]
  have h2 : Memoized.call (⟨f, [(memoKey a1 k1, f a1 k1)]⟩ : Memoized V) a2 k2
      = (f a1 k1, ⟨f, [(memoKey a1 k1, f a1 k1)]⟩, false) := by
    simp [Memoized.call, memoLookup, heq]
  have h3 : (Memoized.call (⟨f, [(memoKey a1 k1, f a1 k1)]⟩ : Memoized V) a3 k3).2.2
      = true := by
    have hne2 : memoKey a1 k1 ≠ memoKey a3 k3 := fun e => hne e.symm
    simp [Memoized.call, memoLookup, hne2]
  refine ⟨?_, ?_, ?_, ?_, ?_, ?_⟩ <;> simp [h1, h2, h3]

/-- C6 witness: `f(1, a=2, b=3)` then `f(1, x=2, b=3)` — different
keyword names whose hash slots (a, b = 0, 3 and x, b = 1, 3) put the
same values in the same iteration order — hits the cache without
re-executing; `f(1, a=2, b=4)` executes again. -/
theorem memoized_call_caches_witness :
    ((Memoized.call ⟨fNatConst, []⟩ [1] [("a", 2), ("b", 3)]).2.1.call
        [1] [("x", 2), ("b", 3)]).2.2 = false
    ∧ ((Memoized.call ⟨fNatConst, []⟩ [1] [("a", 2), ("b", 3)]).2.1.call
        [1] [("x", 2), ("b", 3)]).1
      = (Memoized.call ⟨fNatConst, []⟩ [1] [("a", 2), ("b", 3)]).1
    ∧ (((Memoized.call ⟨fNatConst, []⟩ [1] [("a", 2), ("b", 3)]).2.1.call
        [1] [("x", 2), ("b", 3)]).2.1.call [1] [("a", 2), ("b", 4)]).2.2 = true := by
  have h := memoized_call_caches fNatConst [1] [1] [1]
    [("a", 2), ("b", 3)] [("x", 2), ("b", 3)] [("a", 2), ("b", 4)]
    (by decide) (by decide)
  exact ⟨h.2.2.2.1, h.2.2.1, h.2.2.2.2.2⟩

/-- C7: `parse_git_show` on the all-zero sentinel revision fails with
`InvalidArgument` before any diff query runs, for every oracle output
and extension filter. -/
theorem parse_git_show_null_revision (showOut : Str) (ext : Option (List String)) :
    parse_git_show zeros40 showOut ext = (.error .invalidArgument, false) := by
  simp [parse_git_show]

/-- C8 counterexample: a raw line whose object ids contain `'z'` does not
match the spec's stated 40-hex pattern, yet `parse_git_show` produces a
record for it — the source's character class is `[a-z0-9]`, not hex. -/
theorem parse_git_show_accepts_nonhex_ids :
    (parse_git_show "abc" zShowLine none).1
      = .ok [[("old_blob", z40), ("new_blob", z40),
              ("status", ['M']), ("path", ("zzz.py").data)]]
    ∧ specRawLinePattern zShowLine = none := by
  constructor
  · rfl
  · rfl

/-- C8 (amended): for every non-sentinel revision, oracle diff output and
optional extension filter, `parse_git_show` succeeds — lines that do not
match never abort the call — and returns exactly one record per output
line matching the source's raw pattern (object ids drawn from
`[a-z0-9]{40}`, a superset of 40-hex) whose path passes the suffix
filter, in line order. -/
theorem parse_git_show_per_line (sha : String) (h : sha ≠ zeros40)
    (showOut : Str) (ext : Option (List String)) :
    parse_git_show sha showOut ext
      = (.ok ((splitlines showOut).filterMap (fun line =>
          (matchRawLine line).bind (fun g =>
            if extension_match g.path ext then some (showRecord g) else none))), true) := by
  simp [parse_git_show, h, parse_show_lines_filterMap]

/-- C8 witness: one well-formed raw line followed by a malformed line
yields exactly one record with the malformed line skipped. -/
theorem parse_git_show_per_line_witness :
    parse_git_show "abc" sampleShow none
      = (.ok [[("old_blob", hexA40), ("new_blob", hexB40),
               ("status", ['M']), ("path", ("githooks.py").data)]], true) := by
  have h := parse_git_show_per_line "abc" (by decide) sampleShow none
  rw [h]
  rfl

/-- C9 counterexample: with two recipients where the first send raises,
the connection is opened and the error propagates, but `smtp.close()` is
never reached: the connection is not closed, against the claim that it
closes even if a send in the batch failed. -/
theorem send_mail_close_skipped_on_failure :
    send_mail mailBatch relayFailFirst
      = (.error .deliveryFailed, ⟨1, [("a@x.com", wrapHtml "hi")], false⟩)
    ∧ (send_mail mailBatch relayFailFirst).2.closed = false := by
  constructor
  · rfl
  · rfl

/-- C9 (amended): an empty recipients mapping returns immediately with no
connection attempt; a non-empty one opens exactly one connection; when
every send succeeds exactly one message per recipient goes out, in
order, and the connection is closed; the connection is closed only if
every send succeeded — a raising send propagates and skips the close. -/
theorem send_mail_batch_spec (mail_to : List (String × String))
    (res : String → Option MailError) :
    (mail_to = [] → send_mail mail_to res = (.ok (), ⟨0, [], false⟩))
    ∧ (mail_to ≠ [] → (send_mail mail_to res).2.connections = 1)
    ∧ (mail_to ≠ [] → (∀ p ∈ mail_to, res p.1 = none) →
        send_mail mail_to res
          = (.ok (), ⟨1, mail_to.map (fun p => (p.1, wrapHtml p.2)), true⟩))
    ∧ ((send_mail mail_to res).2.closed = true → ∀ p ∈ mail_to, res p.1 = none) := by
  refine ⟨?_, ?_, ?_, ?_⟩
  · intro h; simp [send_mail, h]
  · intro h
    rcases hsl : sendLoop res mail_to with ⟨s, o⟩
    cases o <;> simp [send_mail, h, hsl]
  · intro h hall
    simp [send_mail, h, sendLoop_all_ok res mail_to hall]
  · intro h
    by_cases hemp : mail_to = []
    · intro p hp
      rw [hemp] at hp
      cases hp
    · rcases hsl : sendLoop res mail_to with ⟨s, o⟩
      cases o with
      | none => exact sendLoop_none_all_ok res mail_to s hsl
      | some e => simp [send_mail, hemp, hsl] at h

/-- C9 witness: an all-success batch of two opens one connection, sends
both wrapped messages in order and closes; the empty batch performs no
connection. -/
theorem send_mail_batch_spec_witness :
    send_mail mailBatch relayOk
      = (.ok (), ⟨1, [("a@x.com", wrapHtml "hi"), ("b@x.com", wrapHtml "bye")], true⟩)
    ∧ send_mail [] relayOk = (.ok (), ⟨0, [], false⟩) := by
  have h := send_mail_batch_spec mailBatch relayOk
  have h2 := send_mail_batch_spec [] relayOk
  refine ⟨?_, h2.1 rfl⟩
  have h3 := h.2.2.1 (by decide) (by decide)
  simpa [mailBatch] using h3

/-- C10: a raising wrapped call stores nothing under its key: the error
propagates, the cache is unchanged, and an identical later call executes
the wrapped function again rather than replaying a cached failure. -/
theorem memoized_error_not_cached {E V : Type} [DecidableEq V]
    (f : List V → List (String × V) → Except E V)
    (st : List (List V × V)) (args : List V) (kwargs : List (String × V)) (e : E)
    (hmiss : memoLookup (memoKey args kwargs) st = none)
    (herr : f args kwargs = .error e) :
    (MemoizedExc.call ⟨f, st⟩ args kwargs).1 = .error e
    ∧ (MemoizedExc.call ⟨f, st⟩ args kwargs).2.1 = ⟨f, st⟩
    ∧ (MemoizedExc.call ⟨f, st⟩ args kwargs).2.2 = true
    ∧ ((MemoizedExc.call ⟨f, st⟩ args kwargs).2.1.call args kwargs).2.2 = true := by
  have h1 : MemoizedExc.call (⟨f, st⟩ : MemoizedExc E V) args kwargs
      = (.error e, ⟨f, st⟩, true) := by
    simp [MemoizedExc.call, hmiss, herr]
  refine ⟨?_, ?_, ?_, ?_⟩ <;> simp [h1]

/-- C10 witness: an always-raising function is re-executed on the repeat
call and the cache stays empty. -/
theorem memoized_error_not_cached_witness :
    (MemoizedExc.call ⟨fNatErr, []⟩ [5] []).1 = .error ()
    ∧ (MemoizedExc.call ⟨fNatErr, []⟩ [5] []).2.1 = ⟨fNatErr, []⟩
    ∧ ((MemoizedExc.call ⟨fNatErr, []⟩ [5] []).2.1.call [5] []).2.2 = true := by
  have h := memoized_error_not_cached fNatErr [] [5] [] () rfl rfl
  exact ⟨h.1, h.2.1, h.2.2.2⟩

end Hookutil
